import Mathlib

/-!
Verification development for the StatementSensei fallback PDF text extractor
(webapp/fallback_parsers/pdf_text.py) and the Hong Leong Bank statement
table analyzer (webapp/banks/hlb.py).

Modelling conventions:
* raw bytes are `List Nat` (each entry a byte value);
* decoded text is `List Char` (Python `str`, latin-1 decoded byte-per-char);
* Python floats are modelled as `ℚ` (all coordinates and amounts in the
  claims are exactly representable decimals, so rational arithmetic agrees
  with IEEE double arithmetic on them);
* `zlib.decompress` is external to the repository, so it is abstracted as
  an oracle `inflate : List Nat → Option (List Nat)` (`none` models the
  exception caught by the `try/except` in `_extract_flate_streams`);
* the content-stream tokenizer in the source is a `while` loop that does
  not always terminate (a stray delimiter byte at top level makes no
  progress), so it is modelled with an explicit fuel parameter together
  with a completion flag: `false` means the Python loop never finishes.
* Python exceptions escaping a function are modelled with `Except PErr`.
-/

/-- Errors that can escape the text-extraction layer: a `TypeError` from
`float()` applied to a non-numeric operand stack entry, and divergence of
the tokenizer loop (the Python generator never terminates). -/
inductive PErr where
  | typeError
  | nonterm
deriving DecidableEq, Repr

instance {ε α : Type} [DecidableEq ε] [DecidableEq α] : DecidableEq (Except ε α) :=
  fun x y =>
    match x, y with
    | .error a, .error b =>
      match decEq a b with
      | .isTrue h => .isTrue (h ▸ rfl)
      | .isFalse h => .isFalse fun hh => h (by cases hh; rfl)
    | .ok a, .ok b =>
      match decEq a b with
      | .isTrue h => .isTrue (h ▸ rfl)
      | .isFalse h => .isFalse fun hh => h (by cases hh; rfl)
    | .error _, .ok _ => .isFalse fun hh => by cases hh
    | .ok _, .error _ => .isFalse fun hh => by cases hh

/-- A positioned text fragment, mirroring the frozen dataclass `TextItem`
in pdf_text.py. -/
structure TextItem where
  x : ℚ
  y : ℚ
  text : List Char
deriving DecidableEq, Repr

/-! ### Byte and character classes used by pdf_text.py -/

/-- Whitespace byte set of the tokenizer: `b" \t\r\n\x0c\x00"`. -/
def wsByte (b : Nat) : Bool :=
  b = 32 || b = 9 || b = 13 || b = 10 || b = 12 || b = 0

/-- Delimiter byte set of the tokenizer: `b"()[]<>{}/%"`. -/
def delimByte (b : Nat) : Bool :=
  b = 40 || b = 41 || b = 91 || b = 93 || b = 60 || b = 62 ||
  b = 123 || b = 125 || b = 47 || b = 37

/-- ASCII digit byte. -/
def isDigB (b : Nat) : Bool := 48 ≤ b && b ≤ 57

/-- Octal digit byte. -/
def isOctB (b : Nat) : Bool := 48 ≤ b && b ≤ 55

/-- Characters removed by Python `str.strip()` (whitespace code points that
can arise from latin-1 decoded bytes). -/
def isSpC (c : Char) : Bool :=
  c.toNat = 32 || c.toNat = 9 || c.toNat = 10 || c.toNat = 11 ||
  c.toNat = 12 || c.toNat = 13 || c.toNat = 28 || c.toNat = 29 ||
  c.toNat = 30 || c.toNat = 31 || c.toNat = 133 || c.toNat = 160

/-- Python `str.strip()` on a character list: drop whitespace from both
ends. -/
def stripL (l : List Char) : List Char :=
  ((l.dropWhile isSpC).reverse.dropWhile isSpC).reverse

/-- Word character for the `\b` boundaries of the compiled regexes
(ASCII model of `[A-Za-z0-9_]`). -/
def isWordC (c : Char) : Bool := c.isAlphanum || c = '_'

/-! ### `_decode_pdf_literal`: PDF literal-string escape decoding -/

/-- Value of up to three octal digit bytes, as collected by the
`oct_digits` loop in `_decode_pdf_literal` (`int(oct_digits, 8) & 0xFF`). -/
def octVal1 (a : Nat) : Nat := (a - 48) % 256

def octVal2 (a b : Nat) : Nat := ((a - 48) * 8 + (b - 48)) % 256

def octVal3 (a b c : Nat) : Nat := (((a - 48) * 8 + (b - 48)) * 8 + (c - 48)) % 256

/-- Collect up to two further octal digits after a first octal digit `c2`
(the `while j < len(raw) and len(oct_digits) < 3` loop of
`_decode_pdf_literal`), returning the byte value `int(oct_digits, 8) & 0xFF`
together with the number of extra digit bytes consumed. -/
def octSplit (c2 : Nat) (r2 : List Nat) : Nat × Nat :=
  match r2 with
  | [] => (octVal1 c2, 0)
  | d2 :: r3 =>
    if isOctB d2 then
      match r3 with
      | [] => (octVal2 c2 d2, 1)
      | d3 :: _ =>
        if isOctB d3 then (octVal3 c2 d2 d3, 2) else (octVal2 c2 d2, 1)
    else (octVal1 c2, 0)

/-- Body of `_decode_pdf_literal`, with fuel bounding the loop iteration
count (every iteration consumes at least one byte, so `length + 1` fuel
always completes): resolve backslash escapes left-to-right, then decode
latin-1 (byte value = code point).  A trailing lone backslash is dropped
(`if i >= len(raw): break`); `\n \r \t \b \f` map to their control
characters; `\( \) \\` map to the escaped byte; `\` before an octal digit
consumes up to three octal digits; `\` before anything else yields that
byte verbatim. -/
def decodeLitF : Nat → List Nat → List Char
  | 0, _ => []
  | _ + 1, [] => []
  | n + 1, c :: r =>
    if c ≠ 92 then Char.ofNat c :: decodeLitF n r
    else
      match r with
      | [] => []
      | c2 :: r2 =>
        if c2 = 110 then Char.ofNat 10 :: decodeLitF n r2
        else if c2 = 114 then Char.ofNat 13 :: decodeLitF n r2
        else if c2 = 116 then Char.ofNat 9 :: decodeLitF n r2
        else if c2 = 98 then Char.ofNat 8 :: decodeLitF n r2
        else if c2 = 102 then Char.ofNat 12 :: decodeLitF n r2
        else if c2 = 40 || c2 = 41 || c2 = 92 then Char.ofNat c2 :: decodeLitF n r2
        else if isOctB c2 then
          Char.ofNat (octSplit c2 r2).1 :: decodeLitF n (r2.drop (octSplit c2 r2).2)
        else Char.ofNat c2 :: decodeLitF n r2

/-- `_decode_pdf_literal`. -/
def decodeLit (l : List Nat) : List Char := decodeLitF (l.length + 1) l

/-! ### `_tokenize_pdf_content_stream` -/

/-- Tokens yielded by `_tokenize_pdf_content_stream`, with their raw byte
payloads: literal strings, bracketed arrays, `/`-names and bare tokens. -/
inductive Tok where
  | str (b : List Nat)
  | arr (b : List Nat)
  | nm (b : List Nat)
  | bare (b : List Nat)
deriving DecidableEq, Repr

/-- Balanced scan shared by the literal-string and array branches of the
tokenizer: starting at nesting depth `depth`, an unescaped backslash copies
itself and the following byte verbatim, `opn`/`cls` adjust the depth, and
the closing byte of depth 1 is consumed but not copied.  Returns the
captured buffer and the remaining input; input exhaustion returns whatever
was captured (unterminated constructs are tolerated). -/
def scanDelim (opn cls : Nat) : List Nat → Nat → List Nat → List Nat × List Nat
  | [], _, acc => (acc.reverse, [])
  | c :: r, depth, acc =>
    if c = 92 then
      match r with
      | [] => ((c :: acc).reverse, [])
      | c2 :: r2 => scanDelim opn cls r2 depth (c2 :: c :: acc)
    else if c = opn then scanDelim opn cls r (depth + 1) (c :: acc)
    else if c = cls then
      if depth = 1 then (acc.reverse, r)
      else scanDelim opn cls r (depth - 1) (c :: acc)
    else scanDelim opn cls r depth (c :: acc)

/-- Run of bytes forming a name body or bare token: scan until whitespace
or a delimiter byte. -/
def spanTok (l : List Nat) : List Nat × List Nat :=
  (l.takeWhile (fun b => !wsByte b && !delimByte b),
   l.dropWhile (fun b => !wsByte b && !delimByte b))

/-- Bytes following the first newline byte, for the `%` comment branch
(`data.find(b"\n", i)`); `none` when no newline remains, in which case the
generator returns normally. -/
def afterNewline : List Nat → Option (List Nat)
  | [] => none
  | c :: r => if c = 10 then some r else afterNewline r

/-- One step of result accumulation for the fuel-indexed tokenizer. -/
def consTok (t : Tok) (p : List Tok × Bool) : List Tok × Bool :=
  (t :: p.1, p.2)

/-- `_tokenize_pdf_content_stream`, with explicit fuel bounding the number
of iterations of the outer `while i < len(data)` loop.  The Boolean result
is `true` when the loop finished (the Python generator terminated) and
`false` when the fuel ran out.  Every iteration of the source loop
consumes at least one byte except the bare-token branch reached on a stray
delimiter byte (`) ] < > { }` at top level), which consumes nothing: on
such inputs no amount of fuel completes, matching the non-terminating
behaviour of the source. -/
def tokenizeFuel : Nat → List Nat → List Tok × Bool
  | 0, _ => ([], false)
  | _ + 1, [] => ([], true)
  | n + 1, c :: r =>
    if wsByte c then tokenizeFuel n r
    else if c = 37 then
      match afterNewline r with
      | none => ([], true)
      | some rest => tokenizeFuel n rest
    else if c = 40 then
      match scanDelim 40 41 r 1 [] with
      | (buf, rest) => consTok (.str buf) (tokenizeFuel n rest)
    else if c = 91 then
      match scanDelim 91 93 r 1 [] with
      | (buf, rest) => consTok (.arr buf) (tokenizeFuel n rest)
    else if c = 47 then
      match spanTok r with
      | (body, rest) => consTok (.nm (47 :: body)) (tokenizeFuel n rest)
    else
      match spanTok (c :: r) with
      | (body, rest) => consTok (.bare body) (tokenizeFuel n rest)

/-- Tokenizer entry point: `data.length + 1` fuel is enough for every
terminating run of the source loop (each completed iteration consumes at
least one byte). -/
def tokenize (data : List Nat) : List Tok × Bool :=
  tokenizeFuel (data.length + 1) data

/-! ### Numeric token recognition (`_NUM_TOKEN_RE`) and `float()` -/

/-- Value of a run of decimal digit bytes. -/
def digitsValB (ds : List Nat) : ℚ :=
  ds.foldl (fun a d => a * 10 + ((d - 48 : Nat) : ℚ)) 0

/-- Natural-number value of a run of decimal digit bytes. -/
def expNatB (ds : List Nat) : Nat :=
  ds.foldl (fun a d => a * 10 + (d - 48)) 0

/-- Optional exponent part `(?:[eE][+-]?\d+)?$` of `_NUM_TOKEN_RE`;
returns the scale factor, or `none` when the remaining bytes do not form a
valid ending. -/
def parseExp (b : List Nat) : Option ℚ :=
  match b with
  | [] => some 1
  | e :: r =>
    if e = 101 || e = 69 then
      let p : ℤ × List Nat :=
        match r with
        | 43 :: r' => (1, r')
        | 45 :: r' => (-1, r')
        | _ => (1, r)
      let ds := p.2.takeWhile isDigB
      let rest := p.2.dropWhile isDigB
      if ds.isEmpty || !rest.isEmpty then none
      else some ((10 : ℚ) ^ (p.1 * (expNatB ds : ℤ)))
    else none

/-- `_NUM_TOKEN_RE` combined with `float(val)`: `some q` exactly when the
bare token matches `^[+-]?(?:\d+\.\d*|\d*\.\d+|\d+)(?:[eE][+-]?\d+)?$`,
with `q` the decimal value. -/
def parseNum (b : List Nat) : Option ℚ :=
  let s : ℚ × List Nat :=
    match b with
    | 43 :: r => (1, r)
    | 45 :: r => (-1, r)
    | _ => (1, b)
  let ip := s.2.takeWhile isDigB
  let b2 := s.2.dropWhile isDigB
  match b2 with
  | 46 :: r =>
    let fp := r.takeWhile isDigB
    let b3 := r.dropWhile isDigB
    if ip.isEmpty && fp.isEmpty then none
    else (parseExp b3).map (fun e => s.1 * (digitsValB ip + digitsValB fp / 10 ^ fp.length) * e)
  | _ =>
    if ip.isEmpty then none
    else (parseExp b2).map (fun e => s.1 * digitsValB ip * e)

/-! ### The `TJ` array sub-scan: `re.finditer(br"\((.*?)\)", arr_raw)` -/

/-- Scan for the nearest closing parenthesis, failing on a newline byte
(`.` in the pattern does not match `\n`); returns the bytes before it and
the bytes after it. -/
def scanClose : List Nat → Option (List Nat × List Nat)
  | [] => none
  | c :: r =>
    if c = 41 then some ([], r)
    else if c = 10 then none
    else
      match scanClose r with
      | none => none
      | some (g, r') => some (c :: g, r')

/-- All non-overlapping minimal `(...)` groups of the raw array bytes, as
found by `re.finditer(br"\((.*?)\)", arr_raw)`, with fuel bounding the
scan position (every step advances by at least one byte, so `length + 1`
fuel always completes): at each `(` the nearest `)` with no intervening
newline closes a group and scanning resumes after it; an unclosable `(`
is skipped. -/
def tjGroupsF : Nat → List Nat → List (List Nat)
  | 0, _ => []
  | _ + 1, [] => []
  | n + 1, c :: r =>
    if c = 40 then
      match scanClose r with
      | some (g, r') => g :: tjGroupsF n r'
      | none => tjGroupsF n r
    else tjGroupsF n r

def tjGroups (l : List Nat) : List (List Nat) := tjGroupsF (l.length + 1) l

/-! ### `_extract_text_items_from_content_stream` -/

/-- Operand-stack entries: `float(val)` results for numeric tokens, and
the raw `(kind, val)` tuples for string/array/name tokens. -/
inductive SVal where
  | num (q : ℚ)
  | tk (t : Tok)
deriving DecidableEq, Repr

/-- `float(v)` on a stack entry: defined for numbers, a `TypeError` for
tuple entries. -/
def svalFloat : SVal → Option ℚ
  | .num q => some q
  | .tk _ => none

/-- State of the text-positioning interpreter: inside-text flag, cursor,
operand stack (head is the top), and the fragments emitted so far. -/
structure IState where
  inText : Bool
  x : ℚ
  y : ℚ
  stack : List SVal
  items : List TextItem
deriving DecidableEq, Repr

def opBT : List Char := "BT".toList
def opET : List Char := "ET".toList
def opTm : List Char := "Tm".toList
def opTd : List Char := "Td".toList
def opTj : List Char := "Tj".toList
def opTJ : List Char := "TJ".toList

/-- Fragments contributed by one `TJ` operator for raw array bytes `b` at
cursor `(x, y)`. -/
def tjItems (x y : ℚ) (b : List Nat) : List TextItem :=
  (tjGroups b).filterMap fun g =>
    let t := stripL (decodeLit g)
    if t.isEmpty then none else some ⟨x, y, t⟩

/-- One iteration of the token loop of
`_extract_text_items_from_content_stream`.  Non-bare tokens are pushed;
numeric bare tokens are pushed as floats; other bare tokens act as
operators: `BT`/`ET` toggle the text block, operators outside a text block
only clear the stack, `Tm`/`Td` with enough operands move the cursor
(raising `TypeError` when `float()` is applied to a tuple entry), `Tj`/`TJ`
emit fragments, anything else clears the stack. -/
def stepTok (st : IState) (t : Tok) : Except PErr IState :=
  match t with
  | .str b => .ok ⟨st.inText, st.x, st.y, .tk (.str b) :: st.stack, st.items⟩
  | .arr b => .ok ⟨st.inText, st.x, st.y, .tk (.arr b) :: st.stack, st.items⟩
  | .nm b => .ok ⟨st.inText, st.x, st.y, .tk (.nm b) :: st.stack, st.items⟩
  | .bare v =>
    match parseNum v with
    | some q => .ok ⟨st.inText, st.x, st.y, .num q :: st.stack, st.items⟩
    | none =>
      let op := v.map Char.ofNat
      if op = opBT then .ok ⟨true, st.x, st.y, [], st.items⟩
      else if op = opET then .ok ⟨false, st.x, st.y, [], st.items⟩
      else if !st.inText then .ok ⟨st.inText, st.x, st.y, [], st.items⟩
      else if op = opTm ∧ 6 ≤ st.stack.length then
        match st.stack with
        | a1 :: a2 :: _ =>
          match svalFloat a2 with
          | none => .error .typeError
          | some xv =>
            match svalFloat a1 with
            | none => .error .typeError
            | some yv => .ok ⟨st.inText, xv, yv, [], st.items⟩
        | _ => .ok ⟨st.inText, st.x, st.y, [], st.items⟩
      else if op = opTd ∧ 2 ≤ st.stack.length then
        match st.stack with
        | a1 :: a2 :: _ =>
          match svalFloat a2 with
          | none => .error .typeError
          | some dx =>
            match svalFloat a1 with
            | none => .error .typeError
            | some dy => .ok ⟨st.inText, st.x + dx, st.y + dy, [], st.items⟩
        | _ => .ok ⟨st.inText, st.x, st.y, [], st.items⟩
      else if op = opTj then
        match st.stack with
        | .tk (.str b) :: _ =>
          let txt := stripL (decodeLit b)
          if txt.isEmpty then .ok ⟨st.inText, st.x, st.y, [], st.items⟩
          else .ok ⟨st.inText, st.x, st.y, [], st.items ++ [⟨st.x, st.y, txt⟩]⟩
        | _ => .ok ⟨st.inText, st.x, st.y, [], st.items⟩
      else if op = opTJ then
        match st.stack with
        | .tk (.arr b) :: _ =>
          .ok ⟨st.inText, st.x, st.y, [], st.items ++ tjItems st.x st.y b⟩
        | _ => .ok ⟨st.inText, st.x, st.y, [], st.items⟩
      else .ok ⟨st.inText, st.x, st.y, [], st.items⟩

/-- Run the interpreter over a token list, propagating the first raised
`TypeError`. -/
def runToks : IState → List Tok → Except PErr IState
  | st, [] => .ok st
  | st, t :: ts =>
    match stepTok st t with
    | .error e => .error e
    | .ok st' => runToks st' ts

/-- `_extract_text_items_from_content_stream` on one decompressed stream:
tokenize, then replay the token stream from the initial state (outside a
text block, cursor at the origin, empty stack).  When the tokenizer loop
never terminates the extraction never returns (`PErr.nonterm`); fragments
emitted before a `TypeError` are lost with the exception. -/
def extractItemsCS (s : List Nat) : Except PErr (List TextItem) :=
  match runToks ⟨false, 0, 0, [], []⟩ (tokenize s).1 with
  | .error e => .error e
  | .ok st => if (tokenize s).2 then .ok st.items else .error .nonterm

/-! ### `_extract_flate_streams` -/

/-- Skip to just past the first `stream\r?\n` marker (the `re.finditer`
step), if any. -/
def stripStreamMarker (l : List Nat) : Option (List Nat) :=
  match l with
  | 115 :: 116 :: 114 :: 101 :: 97 :: 109 :: 13 :: 10 :: r => some r
  | 115 :: 116 :: 114 :: 101 :: 97 :: 109 :: 10 :: r => some r
  | _ => none

/-- Remainder after the first occurrence of `stream\r?\n`. -/
def findMarker : List Nat → Option (List Nat)
  | [] => none
  | c :: r =>
    match stripStreamMarker (c :: r) with
    | some s => some s
    | none => findMarker r

/-- Index of the first occurrence of `needle` in `hay`
(`bytes.find`), if any. -/
def findSub (needle : List Nat) : List Nat → Option Nat
  | [] => if needle.isEmpty then some 0 else none
  | c :: r =>
    if needle <+: (c :: r) then some 0
    else (findSub needle r).map (· + 1)

def endstreamBytes : List Nat := "endstream".toList.map Char.toNat

/-- `_extract_flate_streams` with an explicit inflate oracle standing for
`zlib.decompress` (`none` models the exception swallowed by the
`try/except`), and fuel bounding the number of `stream` markers examined
(each marker consumes at least seven bytes, so `length + 1` always
suffices).  A block without a following `endstream`, or whose bytes fail
to inflate, is skipped. -/
def extractFlateAux (inflate : List Nat → Option (List Nat)) :
    Nat → List Nat → List (List Nat)
  | 0, _ => []
  | fuel + 1, pdf =>
    match findMarker pdf with
    | none => []
    | some s =>
      match findSub endstreamBytes s with
      | none => extractFlateAux inflate fuel s
      | some e =>
        match inflate (s.take e) with
        | some d => d :: extractFlateAux inflate fuel s
        | none => extractFlateAux inflate fuel s

def extractFlate (inflate : List Nat → Option (List Nat)) (pdf : List Nat) :
    List (List Nat) :=
  extractFlateAux inflate (pdf.length + 1) pdf

def btBytes : List Nat := "BT".toList.map Char.toNat

/-- `extract_text_items_from_pdf`: decompress every recognized stream,
skip streams without a `BT` marker, and concatenate the fragments of the
rest in order; an exception or divergence inside one stream's extraction
escapes the whole function. -/
def extractPdfItems (inflate : List Nat → Option (List Nat)) (pdf : List Nat) :
    Except PErr (List TextItem) :=
  (extractFlate inflate pdf).foldlM
    (fun acc s =>
      if btBytes <:+: s then
        match extractItemsCS s with
        | .error e => .error e
        | .ok its => .ok (acc ++ its)
      else .ok acc)
    []

/-! ### `group_text_items_into_rows` -/

/-- Sort key of `sorted(items, key=lambda t: (-t.y, t.x))` as a total
preorder: descending `y`, then ascending `x`.  Python's `sorted` is the
stable sort with respect to this preorder; `List.insertionSort` is also
stable, so the two agree. -/
def itemR (a b : TextItem) : Prop :=
  b.y < a.y ∨ (a.y = b.y ∧ a.x ≤ b.x)

instance : DecidableRel itemR := fun a b =>
  inferInstanceAs (Decidable (b.y < a.y ∨ (a.y = b.y ∧ a.x ≤ b.x)))

instance : IsTotal TextItem itemR :=
  ⟨fun a b => by
    unfold itemR
    rcases lt_trichotomy a.y b.y with h | h | h
    · exact .inr (.inl h)
    · rcases le_total a.x b.x with hx | hx
      · exact .inl (.inr ⟨h, hx⟩)
      · exact .inr (.inr ⟨h.symm, hx⟩)
    · exact .inl (.inl h)⟩

instance : IsTrans TextItem itemR :=
  ⟨fun a b c hab hbc => by
    unfold itemR at *
    rcases hab with h1 | ⟨h1, h1x⟩ <;> rcases hbc with h2 | ⟨h2, h2x⟩
    · exact .inl (h2.trans h1)
    · exact .inl (h2 ▸ h1)
    · exact .inl (h1 ▸ h2)
    · exact .inr ⟨h1.trans h2, h1x.trans h2x⟩⟩

def sortItems (items : List TextItem) : List TextItem :=
  items.insertionSort itemR

/-- Linear scan of the existing row keys in first-created order: the item
joins the first row whose key is within `tol`, else opens a new row at the
end keyed by its own `y`. -/
def addToRow (tol : ℚ) (rows : List (ℚ × List TextItem)) (it : TextItem) :
    List (ℚ × List TextItem) :=
  match rows with
  | [] => [(it.y, [it])]
  | (k, b) :: rest =>
    if |k - it.y| ≤ tol then (k, b ++ [it]) :: rest
    else (k, b) :: addToRow tol rest it

/-- Total preorder of the within-row sort `sorted(row_items, key=lambda
t: t.x)`. -/
def xR (a b : TextItem) : Prop := a.x ≤ b.x

instance : DecidableRel xR := fun a b => inferInstanceAs (Decidable (a.x ≤ b.x))

instance : IsTotal TextItem xR := ⟨fun a b => le_total a.x b.x⟩

instance : IsTrans TextItem xR := ⟨fun _ _ _ h1 h2 => le_trans h1 h2⟩

/-- `group_text_items_into_rows`: cluster fragments into rows keyed by the
first-seen `y` (processing order: descending `y`, then ascending `x`),
then sort each row's fragments by ascending `x`.  The association list
keeps the dict's key-insertion order. -/
def groupRows (items : List TextItem) (tol : ℚ) : List (ℚ × List TextItem) :=
  ((sortItems items).foldl (addToRow tol) []).map
    fun r => (r.1, r.2.insertionSort xR)

/-! ### HongLeongBankParser (webapp/banks/hlb.py) -/

/-- Transaction polarity tag. -/
inductive Polarity where
  | credit
  | debit
deriving DecidableEq, Repr

/-- Final output record of `parse` (one entry of the returned list of
dicts). -/
structure TxRecord where
  tdate : List Char
  tdesc : List Char
  amount : ℚ
  polarity : Polarity
deriving DecidableEq, Repr

/-- Transient accumulation state for one statement line (the `current`
dict of the row loop). -/
structure RawLine where
  rdate : List Char
  rdesc : List Char
  rdep : Option (List Char)
  rwd : Option (List Char)
deriving DecidableEq, Repr

/-- Column anchor x-coordinates extracted from the header row. -/
structure Anchors where
  dateX : ℚ
  descX : ℚ
  depositX : ℚ
  withdrawalX : ℚ
  balanceX : ℚ
deriving DecidableEq, Repr

/-- The identifying marker of an HLB PrimeBiz statement. -/
def markerT : List Char := "HLB PRIMEBIZ CURRENT ACCOUNT".toList

def labelDate : List Char := "Date".toList
def labelDesc : List Char := "Transaction Description".toList
def labelDeposit : List Char := "Deposit".toList
def labelWithdrawal : List Char := "Withdrawal".toList
def labelBalance : List Char := "Balance".toList

/-- `by_text[t.text] = t.x` lookup: the dict comprehension keeps the last
item for a duplicated text, so look from the right. -/
def lastX (its : List TextItem) (s : List Char) : Option ℚ :=
  (its.reverse.find? fun t => decide (t.text = s)).map (·.x)

/-- Anchor record of a row, available exactly when all five required
labels occur among the row's fragment texts. -/
def rowAnchors (its : List TextItem) : Option Anchors :=
  match lastX its labelDate, lastX its labelDesc, lastX its labelDeposit,
      lastX its labelWithdrawal, lastX its labelBalance with
  | some a, some b, some c, some d, some e => some ⟨a, b, c, d, e⟩
  | _, _, _, _, _ => none

/-- `_find_transaction_header`: scan the rows in dict order (descending
first-seen `y`, i.e. top-to-bottom) and return the first row containing
all required labels, with its key and anchors. -/
def findTransactionHeader : List (ℚ × List TextItem) → Option (ℚ × Anchors)
  | [] => none
  | (y, its) :: rest =>
    match rowAnchors its with
    | some a => some (y, a)
    | none => findTransactionHeader rest

/-- Match of `\d{2}-\d{2}-\d{4}` at the head of the text, returning
`(day, month, year)` digit groups, subject to the trailing `\b`. -/
def dateMatchHere (l : List Char) : Option (List Char × List Char × List Char) :=
  match l with
  | d1 :: d2 :: '-' :: m1 :: m2 :: '-' :: y1 :: y2 :: y3 :: y4 :: rest =>
    if d1.isDigit && d2.isDigit && m1.isDigit && m2.isDigit &&
        y1.isDigit && y2.isDigit && y3.isDigit && y4.isDigit &&
        (match rest with | [] => true | c :: _ => !isWordC c) then
      some ([d1, d2], [m1, m2], [y1, y2, y3, y4])
    else none
  | _ => none

/-- `self._date_re.search`: leftmost match of `\b\d{2}-\d{2}-\d{4}\b`,
tracking whether the previous character was a word character for the
leading `\b`. -/
def dateSearchAux : Bool → List Char → Option (List Char × List Char × List Char)
  | _, [] => none
  | prevWord, c :: r =>
    if !prevWord then
      match dateMatchHere (c :: r) with
      | some m => some m
      | none => dateSearchAux (isWordC c) r
    else dateSearchAux (isWordC c) r

def dateSearch (l : List Char) : Option (List Char × List Char × List Char) :=
  dateSearchAux false l

/-- `_extract_row_date`: first fragment at or left of the description-left
boundary whose text contains a date, reformatted from `DD-MM-YYYY` to
`YYYY-MM-DD`. -/
def extractRowDate (its : List TextItem) (descLeft : ℚ) : Option (List Char) :=
  match its with
  | [] => none
  | t :: r =>
    if decide (t.x ≤ descLeft) then
      match dateSearch t.text with
      | some (d, m, y) => some (y ++ '-' :: m ++ '-' :: d)
      | none => extractRowDate r descLeft
    else extractRowDate r descLeft

/-- `" ".join(parts)`: concatenation with a single space between
consecutive parts. -/
def spaceJoin : List (List Char) → List Char
  | [] => []
  | [d] => d
  | d :: rest => d ++ ' ' :: spaceJoin rest

/-- `_extract_description`: texts of the fragments whose `x` lies in
`[desc_left, desc_right)`, space-joined and stripped. -/
def extractDescription (its : List TextItem) (descLeft descRight : ℚ) : List Char :=
  stripL (spaceJoin
    ((its.filter fun t => decide (descLeft ≤ t.x) && decide (t.x < descRight)).map
      TextItem.text))

/-- Tail of the amount pattern after the leading digit group:
`(?:,\d{3})*\.\d{2}` up to the end of the string. -/
def amountTail : List Char → Bool
  | '.' :: a :: b :: [] => a.isDigit && b.isDigit
  | ',' :: a :: b :: c :: rest => a.isDigit && b.isDigit && c.isDigit && amountTail rest
  | _ => false

/-- `self._amount_re.fullmatch`: the whole text matches
`\d{1,3}(?:,\d{3})*\.\d{2}` (the surrounding `\b` are vacuous under
fullmatch since the ends are digits). -/
def isAmount : List Char → Bool
  | d1 :: r =>
    d1.isDigit &&
      (amountTail r ||
        match r with
        | d2 :: r2 =>
          d2.isDigit &&
            (amountTail r2 ||
              match r2 with
              | d3 :: r3 => d3.isDigit && amountTail r3
              | [] => false)
        | [] => false)
  | [] => false

/-- `_extract_amounts`: fragments whose stripped text matches the amount
pattern are classified by the column band their `x` falls into; later
matches overwrite earlier ones. -/
def extractAmounts (its : List TextItem) (a : Anchors) :
    Option (List Char) × Option (List Char) :=
  its.foldl
    (fun dw t =>
      if !isAmount (stripL t.text) then dw
      else if decide (a.depositX - 2 ≤ t.x) && decide (t.x < a.withdrawalX - 2) then
        (some t.text, dw.2)
      else if decide (a.withdrawalX - 2 ≤ t.x) && decide (t.x < a.balanceX - 2) then
        (dw.1, some t.text)
      else dw)
    (none, none)

/-- The four trailer phrases ending the transaction table. -/
def stopPhrases : List (List Char) :=
  ["Rebate Summary".toList, "Closing Balance".toList,
   "Total Withdrawals".toList, "Total Deposits".toList]

/-- `" ".join(t.text for t in row_items)`. -/
def fullLine (its : List TextItem) : List Char :=
  spaceJoin (its.map TextItem.text)

/-- Does the concatenated row text contain a trailer phrase? -/
def stopRow (its : List TextItem) : Bool :=
  stopPhrases.any fun p => decide (p <:+: fullLine its)

/-- The row loop of `parse`: walks the ordered candidate rows, breaking at
a trailer phrase; a dated row closes the open line and opens a new one, a
non-dated row with description text extends the open line's description,
and the line still open at the end (or at the break) is emitted last. -/
def scanRows (descLeft descRight : ℚ) (a : Anchors) :
    List (ℚ × List TextItem) → Option RawLine → List RawLine
  | [], cur => cur.toList
  | (_, its) :: rest, cur =>
    if stopRow its then cur.toList
    else
      match extractRowDate its descLeft with
      | some d =>
        cur.toList ++
          scanRows descLeft descRight a rest
            (some ⟨d, extractDescription its descLeft descRight,
              (extractAmounts its a).1, (extractAmounts its a).2⟩)
      | none =>
        match cur with
        | some c =>
          if extractDescription its descLeft descRight = [] then
            scanRows descLeft descRight a rest (some c)
          else
            scanRows descLeft descRight a rest
              (some ⟨c.rdate,
                stripL (c.rdesc ++ ' ' :: extractDescription its descLeft descRight),
                c.rdep, c.rwd⟩)
        | none => scanRows descLeft descRight a rest none

/-- Iterated continuation-joining as performed by the row loop:
`current["description"] = (current["description"] + " " + desc).strip()`
once per continuation row, in order. -/
def descJoin (d0 : List Char) (ds : List (List Char)) : List Char :=
  ds.foldl (fun acc d => stripL (acc ++ ' ' :: d)) d0

/-- `dep.replace(",", "")`. -/
def dropCommas (l : List Char) : List Char := l.filter (· ≠ ',')

/-- Value of a run of decimal digit characters. -/
def digitsQ (l : List Char) : ℚ :=
  l.foldl (fun a c => a * 10 + ((c.toNat - 48 : Nat) : ℚ)) 0

/-- `float(s)` for the unsigned decimal strings produced by the amount
regex with commas removed (integer digits, optional dot, fraction
digits). -/
def pyFloatDec (l : List Char) : ℚ :=
  match l.span (· ≠ '.') with
  | (ip, _ :: fp) => digitsQ ip + digitsQ fp / 10 ^ fp.length
  | (ip, []) => digitsQ ip

/-- The final conversion loop of `parse`: a line with both deposit and
withdrawal truthy is skipped, a truthy deposit gives a credit with the
positive value, otherwise a truthy withdrawal gives a debit with the
negated value, and a line with neither is skipped. -/
def finalizeOne (t : RawLine) : Option TxRecord :=
  match t.rdep, t.rwd with
  | some d, some w =>
    if !d.isEmpty && !w.isEmpty then none
    else if !d.isEmpty then some ⟨t.rdate, t.rdesc, pyFloatDec (dropCommas d), .credit⟩
    else if !w.isEmpty then some ⟨t.rdate, t.rdesc, -pyFloatDec (dropCommas w), .debit⟩
    else none
  | some d, none =>
    if !d.isEmpty then some ⟨t.rdate, t.rdesc, pyFloatDec (dropCommas d), .credit⟩
    else none
  | none, some w =>
    if !w.isEmpty then some ⟨t.rdate, t.rdesc, -pyFloatDec (dropCommas w), .debit⟩
    else none
  | none, none => none

def finalizeAll (ts : List RawLine) : List TxRecord := ts.filterMap finalizeOne

/-- Total preorder of the candidate-row sort
(`ordered_rows.sort(key=lambda t: t[0], reverse=True)`): descending key. -/
def rowR (a b : ℚ × List TextItem) : Prop := b.1 ≤ a.1

instance : DecidableRel rowR := fun a b => inferInstanceAs (Decidable (b.1 ≤ a.1))

instance : IsTotal (ℚ × List TextItem) rowR := ⟨fun a b => le_total b.1 a.1⟩

instance : IsTrans (ℚ × List TextItem) rowR := ⟨fun _ _ _ h1 h2 => le_trans h2 h1⟩

/-- Candidate rows of the table: all rows strictly above the header key
minus a one-unit margin, sorted by descending key. -/
def orderedRows (rows : List (ℚ × List TextItem)) (headerY : ℚ) :
    List (ℚ × List TextItem) :=
  (rows.filter fun t => decide (t.1 < headerY - 1)).insertionSort rowR

/-- `HongLeongBankParser.parse` from the extracted text items on: empty
input and missing marker and missing header all yield the empty list;
otherwise the candidate rows are folded into raw lines and finalized. -/
def parseItems (items : List TextItem) : List TxRecord :=
  if items.isEmpty then []
  else if !(items.any fun t => decide (markerT <:+: t.text)) then []
  else
    let rows := groupRows items (1.8 : ℚ)
    match findTransactionHeader rows with
    | none => []
    | some (headerY, a) =>
      finalizeAll
        (scanRows (a.descX - 20) (a.depositX - 2) a (orderedRows rows headerY) none)

/-- `HongLeongBankParser.parse` from raw PDF bytes, for a given inflate
oracle: text extraction followed by the pure statement analysis; an
exception or divergence in extraction escapes `parse`. -/
def parsePdf (inflate : List Nat → Option (List Nat)) (pdf : List Nat) :
    Except PErr (List TxRecord) :=
  match extractPdfItems inflate pdf with
  | .error e => .error e
  | .ok items => .ok (parseItems items)

/-- `HongLeongBankParser.is_hlb_statement`, on outputs of successful
extraction. -/
def isHlbItems (items : List TextItem) : Bool :=
  items.any fun t => decide (markerT <:+: t.text)

/-! ### Concrete documents and inputs used in the claim theorems -/

/-- Latin-1 bytes of an ASCII string. -/
def bytesOf (s : String) : List Nat := s.toList.map Char.toNat

/-- One possible behaviour of the abstracted `zlib.decompress` oracle,
used to instantiate the concrete test documents (for a run of the source
against real zlib, each block below would be stored deflate-compressed;
the oracle abstracts that encoding away). -/
def someInflate : List Nat → Option (List Nat) := fun b => some b

/-- The content stream of the end-to-end example exactly as the spec
states it: header labels at y=700, one transaction row at y=680 — and no
bank marker text. -/
def csC2spec : String :=
  "BT 1 0 0 1 50 700 Tm (Date) Tj 1 0 0 1 100 700 Tm (Transaction Description) Tj " ++
  "1 0 0 1 300 700 Tm (Deposit) Tj 1 0 0 1 360 700 Tm (Withdrawal) Tj " ++
  "1 0 0 1 420 700 Tm (Balance) Tj 1 0 0 1 50 680 Tm (01-02-2024) Tj " ++
  "1 0 0 1 80 680 Tm (Salary Payment) Tj 1 0 0 1 302 680 Tm (1,500.00) Tj ET"

def pdfC2spec : List Nat := bytesOf ("stream\n" ++ csC2spec ++ "endstream")

/-- The same document with the HLB PrimeBiz marker text added above the
table. -/
def csC2 : String :=
  "BT 1 0 0 1 50 750 Tm (HLB PRIMEBIZ CURRENT ACCOUNT) Tj " ++
  "1 0 0 1 50 700 Tm (Date) Tj 1 0 0 1 100 700 Tm (Transaction Description) Tj " ++
  "1 0 0 1 300 700 Tm (Deposit) Tj 1 0 0 1 360 700 Tm (Withdrawal) Tj " ++
  "1 0 0 1 420 700 Tm (Balance) Tj 1 0 0 1 50 680 Tm (01-02-2024) Tj " ++
  "1 0 0 1 80 680 Tm (Salary Payment) Tj 1 0 0 1 302 680 Tm (1,500.00) Tj ET"

def pdfC2 : List Nat := bytesOf ("stream\n" ++ csC2 ++ "endstream")

/-- The transaction record expected by the end-to-end example. -/
def recC2 : TxRecord :=
  ⟨"2024-02-01".toList, "Salary Payment".toList, 1500, .credit⟩

/-- A document whose only stream applies `Tm` with a literal string among
its six operands: `float()` then raises `TypeError` inside text
extraction.  It contains no bank marker anywhere. -/
def pdfC3err : List Nat := bytesOf "stream\nBT 1 0 0 1 (x) 5 Tm ETendstream"

/-- A well-formed single-fragment document without the bank marker. -/
def pdfC3w : List Nat := bytesOf "stream\nBT 1 0 0 1 50 700 Tm (Date) Tj ETendstream"

def itemsC3w : List TextItem := [⟨50, 700, "Date".toList⟩]

/-- A two-transaction document: marker, header, and dated rows at y=680
(printed first, directly below the header) and y=660 (printed second). -/
def csC1 : String :=
  "BT 1 0 0 1 50 750 Tm (HLB PRIMEBIZ CURRENT ACCOUNT) Tj " ++
  "1 0 0 1 50 700 Tm (Date) Tj 1 0 0 1 100 700 Tm (Transaction Description) Tj " ++
  "1 0 0 1 300 700 Tm (Deposit) Tj 1 0 0 1 360 700 Tm (Withdrawal) Tj " ++
  "1 0 0 1 420 700 Tm (Balance) Tj 1 0 0 1 50 680 Tm (01-02-2024) Tj " ++
  "1 0 0 1 80 680 Tm (First) Tj 1 0 0 1 302 680 Tm (1,500.00) Tj " ++
  "1 0 0 1 50 660 Tm (05-02-2024) Tj 1 0 0 1 80 660 Tm (Second) Tj " ++
  "1 0 0 1 302 660 Tm (2,000.00) Tj ET"

def pdfC1 : List Nat := bytesOf ("stream\n" ++ csC1 ++ "endstream")

/-- A small row map with a header key 700 and two candidate keys 680 and
660 (in dict insertion order, which is descending first-seen `y`). -/
def rowsC1 : List (ℚ × List TextItem) :=
  [(700, [⟨50, 700, "Date".toList⟩]), (680, [⟨50, 680, "First".toList⟩]),
   (660, [⟨50, 660, "Second".toList⟩])]

/-- The fixed required header label set. -/
def requiredLabels : List (List Char) :=
  [labelDate, labelDesc, labelDeposit, labelWithdrawal, labelBalance]

/-- A row covers the required label set: every required label occurs among
its fragment texts (this is what the source's
`all(k in by_text for k in required)` tests). -/
def coversRequired (its : List TextItem) : Prop :=
  ∀ l ∈ requiredLabels, ∃ t ∈ its, t.text = l

/-- Modelled from the spec: the claim's stronger reading of "fragment
texts exactly cover the required label set (no other fragments
tolerated)" — every required label occurs, and every fragment's text is
one of the required labels. -/
def coversExactlyClaim (its : List TextItem) : Prop :=
  coversRequired its ∧ ∀ t ∈ its, t.text ∈ requiredLabels

instance (its : List TextItem) : Decidable (coversRequired its) :=
  inferInstanceAs (Decidable (∀ l ∈ requiredLabels, ∃ t ∈ its, t.text = l))

instance (its : List TextItem) : Decidable (coversExactlyClaim its) :=
  inferInstanceAs
    (Decidable (coversRequired its ∧ ∀ t ∈ its, t.text ∈ requiredLabels))

/-- A single-row map whose row holds the five labels plus one extra
fragment. -/
def rowsC5 : List (ℚ × List TextItem) :=
  [(700, [⟨50, 700, labelDate⟩, ⟨100, 700, labelDesc⟩, ⟨300, 700, labelDeposit⟩,
    ⟨360, 700, labelWithdrawal⟩, ⟨420, 700, labelBalance⟩,
    ⟨500, 700, "Extra".toList⟩])]

/-- Fragments at y = 3, 1.5 and 0: consecutive gaps lie within the
default tolerance 1.8, the extremes do not. -/
def itemsC6 : List TextItem :=
  [⟨0, 0, "c".toList⟩, ⟨0, 3, "a".toList⟩, ⟨0, 3 / 2, "b".toList⟩]

/-- A raw transaction line whose deposit field is the amount-pattern
string "0.00". -/
def lineC7 : RawLine := ⟨"2024-01-01".toList, "x".toList, some "0.00".toList, none⟩

/-- The anchors of the standard test header. -/
def anchorsW : Anchors := ⟨50, 100, 300, 360, 420⟩

/-- A dated candidate row (used by the continuation and stop-phrase
witnesses). -/
def rowDated : ℚ × List TextItem :=
  (680, [⟨50, 680, "01-02-2024".toList⟩, ⟨80, 680, "First".toList⟩,
    ⟨302, 680, "1,500.00".toList⟩])

/-- A Closing Balance trailer row. -/
def rowStop : ℚ × List TextItem :=
  (660, [⟨80, 660, "Closing Balance".toList⟩, ⟨302, 660, "3,000.00".toList⟩])

/-- A dated row printed below the trailer row. -/
def rowAfterStop : ℚ × List TextItem :=
  (640, [⟨50, 640, "05-02-2024".toList⟩, ⟨80, 640, "Second".toList⟩,
    ⟨302, 640, "2,000.00".toList⟩])

/-- Two continuation rows: no date, non-empty description text. -/
def rowsCont : List (ℚ × List TextItem) :=
  [(665, [⟨80, 665, "part two".toList⟩]),
   (650, [⟨80, 650, "part three".toList⟩])]

/-! ### Claim theorems -/

/-- C2 counterexample: on the exact document of the spec's end-to-end
example (which contains no HLB PrimeBiz marker), the full parse returns
the empty list, not the expected single TransactionRecord. -/
theorem c2_counterexample :
    parsePdf someInflate pdfC2spec = .ok [] ∧ ([] : List TxRecord) ≠ [recC2] := by
  constructor
  · decide!
  · decide!

/-- C2 (amended): with the HLB PrimeBiz marker text additionally present
in the content stream, the full parse of the spec's end-to-end example
returns exactly one TransactionRecord
`{date: "2024-02-01", description: "Salary Payment", amount: 1500.00,
polarity: credit}`. -/
theorem c2_end_to_end : parsePdf someInflate pdfC2 = .ok [recC2] := by decide!

/-- C4 counterexample: when the literal string `(a\(b\)c)` is shown via a
`TJ` array, the emitted fragment's text is `a(b` — the array sub-scan's
minimal parenthesis match is not escape-aware — contradicting the claimed
`a(b)c`. -/
theorem c4_counterexample :
    extractItemsCS (bytesOf "BT [(a\\(b\\)c)] TJ ET") = .ok [⟨0, 0, "a(b".toList⟩] ∧
      "a(b".toList ≠ "a(b)c".toList := by
  constructor
  · decide!
  · decide!

/-- C4 (amended): shown via `Tj`, the literal string `(a\(b\)c)` is
emitted as exactly one fragment with text `a(b)c` (escaped parentheses do
not change the tokenizer's nesting depth); shown inside a `TJ` array, the
escape-unaware sub-scan still emits exactly one fragment, but its text is
`a(b`. -/
theorem c4_escape_handling :
    extractItemsCS (bytesOf "BT (a\\(b\\)c) Tj ET") = .ok [⟨0, 0, "a(b)c".toList⟩] ∧
      extractItemsCS (bytesOf "BT [(a\\(b\\)c)] TJ ET") = .ok [⟨0, 0, "a(b".toList⟩] := by
  constructor
  · decide!
  · decide!

/-- C8 code bug: on the content-stream byte `)` (and likewise `] < > { }`)
at top level, the tokenizer's bare-token branch consumes no input, so the
scan never terminates — no amount of fuel completes — and text extraction
of the stream `BT )` never returns.  This contradicts the guarantee that
the scan always degrades to producing fewer tokens instead of failing. -/
theorem c8_tokenizer_divergence :
    (∀ n, (tokenizeFuel n [41]).2 = false) ∧
      extractItemsCS (bytesOf "BT )") = .error .nonterm := by
  constructor
  · intro n
    induction n with
    | zero => rfl
    | succ k ih =>
      have h1 : tokenizeFuel (k + 1) [41] = consTok (.bare []) (tokenizeFuel k [41]) := rfl
      rw [h1]
      exact ih
  · decide!

/-- C3 counterexample: a PDF whose stream applies `Tm` to a literal-string
operand makes the whole parse raise `TypeError` instead of returning the
empty list, although the document contains no marker bytes at all. -/
theorem c3_counterexample :
    parsePdf someInflate pdfC3err = .error .typeError ∧
      ¬(bytesOf "HLB PRIMEBIZ CURRENT ACCOUNT" <:+: pdfC3err) := by
  constructor
  · decide!
  · decide!

/-- C1 counterexample: with the header at key 700 and candidate keys 680
and 660, the processing order of the candidate rows is `[680, 660]` —
descending y, not the claimed ascending-y (smallest-first) order. -/
theorem c1_counterexample :
    (orderedRows rowsC1 700).map Prod.fst = [(680 : ℚ), 660] ∧
      ¬((680 : ℚ) ≤ 660) := by
  constructor
  · decide!
  · decide!

/-- C6 counterexample: with the default tolerance 1.8, fragments at y=1.5
and y=0 differ by 1.5 ≤ 1.8 yet land in different rows, because the y=1.5
fragment is captured by the earlier row keyed 3 (chaining). -/
theorem c6_counterexample :
    groupRows itemsC6 (1.8 : ℚ) =
        [(3, [⟨0, 3, "a".toList⟩, ⟨0, 3 / 2, "b".toList⟩]),
         (0, [⟨0, 0, "c".toList⟩])] ∧
      |(3 / 2 : ℚ) - 0| ≤ (1.8 : ℚ) := by
  constructor
  · decide!
  · decide!

/-- C7 counterexample: a line whose only amount is the deposit "0.00"
yields a credit record with amount 0, which is not positive — the claimed
"positive amount equal to the deposit value" fails at value zero. -/
theorem c7_counterexample :
    finalizeOne lineC7 = some ⟨"2024-01-01".toList, "x".toList, 0, .credit⟩ ∧
      ¬(0 < (0 : ℚ)) := by
  constructor
  · decide!
  · decide!

/-- C5 counterexample: header detection succeeds (returning key 700 and
the five label anchors) on a row that also holds a sixth fragment "Extra",
so detection does not require the fragment texts to exactly cover the
label set. -/
theorem c5_counterexample :
    findTransactionHeader rowsC5 = some (700, ⟨50, 100, 300, 360, 420⟩) ∧
      ¬coversExactlyClaim (rowsC5.head!).2 := by
  constructor
  · decide!
  · decide!

/-- Parsing with no marker among the extracted fragments yields the empty
list. -/
theorem parseItems_of_no_marker (items : List TextItem)
    (h : ∀ t ∈ items, ¬(markerT <:+: t.text)) : parseItems items = [] := by
  rcases items with _ | ⟨a, as⟩
  · rfl
  · have hany : ((a :: as).any fun t => decide (markerT <:+: t.text)) = false := by
      rw [List.any_eq_false]
      intro t ht
      simpa using h t ht
    simp [parseItems, hany]

/-- C3 (amended): whenever text extraction returns normally and none of
the extracted fragments contains the HLB PrimeBiz marker substring, the
full parse returns the empty list — the recognition predicate is enforced
inside `parse` itself.  (On inputs where extraction raises or diverges,
`parse` returns nothing at all; see the counterexample.) -/
theorem c3_marker_gating :
    ∀ (inflate : List Nat → Option (List Nat)) (pdf : List Nat)
      (items : List TextItem),
      extractPdfItems inflate pdf = .ok items →
      (∀ t ∈ items, ¬(markerT <:+: t.text)) →
      parsePdf inflate pdf = .ok [] := by
  intro inflate pdf items hx hm
  simp only [parsePdf, hx]
  rw [parseItems_of_no_marker items hm]

/-- C3 witness: a concrete well-formed document with a header fragment
and no marker parses to the empty list, via `c3_marker_gating`. -/
theorem c3_marker_gating_witness : parsePdf someInflate pdfC3w = .ok [] :=
  c3_marker_gating someInflate pdfC3w itemsC3w (by decide!) (by decide!)

/-- Nonnegativity of the digit fold. -/
theorem digitsQ_nonneg (l : List Char) : 0 ≤ digitsQ l := by
  suffices h : ∀ a : ℚ, 0 ≤ a →
      0 ≤ l.foldl (fun a c => a * 10 + ((c.toNat - 48 : Nat) : ℚ)) a from
    h 0 le_rfl
  induction l with
  | nil => intro a ha; simpa using ha
  | cons c r ih =>
    intro a ha
    simp only [List.foldl_cons]
    exact ih _ (add_nonneg (by positivity) (Nat.cast_nonneg _))

/-- Nonnegativity of the modelled `float()` on unsigned decimal strings. -/
theorem pyFloatDec_nonneg (l : List Char) : 0 ≤ pyFloatDec l := by
  unfold pyFloatDec
  rcases h : l.span (· ≠ '.') with ⟨ip, rest⟩
  rcases rest with _ | ⟨c, fp⟩
  · simp only []
    exact digitsQ_nonneg ip
  · simp only []
    exact add_nonneg (digitsQ_nonneg ip)
      (div_nonneg (digitsQ_nonneg fp) (by positivity))

/-- C7 (amended): a finalized line with both deposit and withdrawal set
(truthy) contributes no record; one with neither contributes no record; a
deposit-only line becomes a credit whose amount is the deposit's
(nonnegative) value; a withdrawal-only line becomes a debit whose amount
is minus the withdrawal's (nonnegative) value.  Positivity of the amount
holds whenever the parsed value is nonzero (see the counterexample for
the value-zero deposit "0.00"). -/
theorem c7_polarity_assignment :
    (∀ dt ds (d w : List Char), d ≠ [] → w ≠ [] →
      finalizeOne ⟨dt, ds, some d, some w⟩ = none) ∧
    (∀ dt ds, finalizeOne ⟨dt, ds, none, none⟩ = none) ∧
    (∀ dt ds (d : List Char), d ≠ [] →
      finalizeOne ⟨dt, ds, some d, none⟩ =
        some ⟨dt, ds, pyFloatDec (dropCommas d), .credit⟩ ∧
      0 ≤ pyFloatDec (dropCommas d)) ∧
    (∀ dt ds (w : List Char), w ≠ [] →
      finalizeOne ⟨dt, ds, none, some w⟩ =
        some ⟨dt, ds, -pyFloatDec (dropCommas w), .debit⟩ ∧
      0 ≤ pyFloatDec (dropCommas w)) := by
  refine ⟨?_, ?_, ?_, ?_⟩
  · intro dt ds d w hd hw
    simp [finalizeOne, List.isEmpty_eq_true, hd, hw]
  · intro dt ds
    simp [finalizeOne]
  · intro dt ds d hd
    exact ⟨by simp [finalizeOne, List.isEmpty_eq_true, hd], pyFloatDec_nonneg _⟩
  · intro dt ds w hw
    exact ⟨by simp [finalizeOne, List.isEmpty_eq_true, hw], pyFloatDec_nonneg _⟩

/-- C7 witness: a deposit-only line with amount "1,500.00" becomes a
credit with the parsed nonnegative value. -/
theorem c7_polarity_assignment_witness :
    finalizeOne ⟨"2024-02-01".toList, "Desc".toList, some "1,500.00".toList, none⟩ =
      some ⟨"2024-02-01".toList, "Desc".toList,
        pyFloatDec (dropCommas "1,500.00".toList), .credit⟩ ∧
    0 ≤ pyFloatDec (dropCommas "1,500.00".toList) :=
  c7_polarity_assignment.2.2.1 _ _ _ (by decide!)

/-- C1 (amended): the candidate set is exactly the rows with key strictly
below the header key minus 1; the processing order is descending key
(top-to-bottom on the page), so for a statement printed top-to-bottom the
records are emitted in the printed order — witnessed by the concrete
two-transaction document, whose higher (earlier-printed) row is emitted
first. -/
theorem c1_candidate_rows :
    (∀ (rows : List (ℚ × List TextItem)) (hy : ℚ),
      (∀ z, z ∈ orderedRows rows hy ↔ z ∈ rows ∧ z.1 < hy - 1) ∧
      ((orderedRows rows hy).map Prod.fst).Pairwise (fun a b => b ≤ a)) ∧
    parsePdf someInflate pdfC1 =
      .ok [⟨"2024-02-01".toList, "First".toList, 1500, .credit⟩,
        ⟨"2024-02-05".toList, "Second".toList, 2000, .credit⟩] := by
  constructor
  · intro rows hy
    constructor
    · intro z
      rw [orderedRows, List.mem_insertionSort, List.mem_filter, decide_eq_true_eq]
    · have h := List.sorted_insertionSort rowR (rows.filter fun t => decide (t.1 < hy - 1))
      rw [orderedRows]
      exact List.pairwise_map.mpr (h.imp fun hab => hab)
  · decide!

/-- C1 witness: candidate membership applied at the concrete row map. -/
theorem c1_candidate_rows_witness :
    ((700 : ℚ), [(⟨50, 700, "Date".toList⟩ : TextItem)]) ∉ orderedRows rowsC1 700 ∧
      ((680 : ℚ), [(⟨50, 680, "First".toList⟩ : TextItem)]) ∈ orderedRows rowsC1 700 := by
  constructor
  · intro hmem
    have h := ((c1_candidate_rows.1 rowsC1 700).1 _).mp hmem
    have : ¬((700 : ℚ) < 700 - 1) := by norm_num
    exact this h.2
  · exact ((c1_candidate_rows.1 rowsC1 700).1 _).mpr ⟨by decide!, by norm_num⟩

/-- C10: once a candidate row whose concatenated text contains a trailer
phrase is reached, scanning stops there: the result does not depend on
any later row (even a dated one), and equals the scan of the earlier rows
alone — which ends by emitting the still-open line. -/
theorem c10_stop_phrase :
    ∀ (dl dr : ℚ) (a : Anchors) (pre : List (ℚ × List TextItem))
      (rowS : ℚ × List TextItem) (post : List (ℚ × List TextItem))
      (cur : Option RawLine),
      (∀ q ∈ pre, stopRow q.2 = false) → stopRow rowS.2 = true →
      scanRows dl dr a (pre ++ rowS :: post) cur = scanRows dl dr a pre cur := by
  intro dl dr a pre
  induction pre with
  | nil =>
    intro rowS post cur _ hstop
    obtain ⟨y, its⟩ := rowS
    simp only [List.nil_append, scanRows, hstop]
    rfl
  | cons q pre' ih =>
    intro rowS post cur hpre hstop
    obtain ⟨y, its⟩ := q
    have hq : stopRow its = false := hpre (y, its) (List.mem_cons_self _ _)
    have hpre' : ∀ r ∈ pre', stopRow r.2 = false := fun r hr =>
      hpre r (List.mem_cons_of_mem _ hr)
    simp only [List.cons_append, scanRows, hq, Bool.false_eq_true, if_false,
      List.append_eq]
    cases hdate : extractRowDate its dl with
    | some d =>
      dsimp only
      rw [ih rowS post _ hpre' hstop]
    | none =>
      cases cur with
      | none =>
        dsimp only
        exact ih rowS post none hpre' hstop
      | some c =>
        dsimp only
        by_cases hdesc : extractDescription its dl dr = []
        · rw [if_pos hdesc, if_pos hdesc, ih rowS post (some c) hpre' hstop]
        · rw [if_neg hdesc, if_neg hdesc, ih rowS post _ hpre' hstop]

/-- C10 witness: with a dated row, then a Closing Balance row, then a
later dated row, the scan equals the scan of the dated row alone; in
particular the trailing dated row contributes nothing and the open line
is emitted. -/
theorem c10_stop_phrase_witness :
    scanRows 80 298 anchorsW ([rowDated] ++ rowStop :: [rowAfterStop]) none =
      scanRows 80 298 anchorsW [rowDated] none :=
  c10_stop_phrase 80 298 anchorsW [rowDated] rowStop [rowAfterStop] none
    (by decide!) (by decide!)

/-- `stripL` through Mathlib's right-sided dropWhile. -/
theorem stripL_eq (l : List Char) :
    stripL l = List.rdropWhile isSpC (l.dropWhile isSpC) := rfl

/-- If `dropWhile p (c :: l) = c :: l` then `p c = false`. -/
theorem head_false_of_dropWhile_self {p : Char → Bool} {c : Char} {l : List Char}
    (h : (c :: l).dropWhile p = c :: l) : p c = false := by
  by_cases hc : p c = true
  · rw [List.dropWhile_cons, if_pos hc] at h
    have h1 := (List.dropWhile_suffix (l := l) p).length_le
    have h2 := congrArg List.length h
    simp only [List.length_cons] at h2
    omega
  · simpa using hc

/-- A prefix of a `dropWhile`-fixed list is `dropWhile`-fixed. -/
theorem dropWhile_self_of_prefix {p : Char → Bool} {y u : List Char}
    (hpre : y <+: u) (hu : u.dropWhile p = u) : y.dropWhile p = y := by
  rcases y with _ | ⟨c, y'⟩
  · rfl
  · obtain ⟨t, ht⟩ := hpre
    rw [List.cons_append] at ht
    rw [← ht] at hu
    have hc := head_false_of_dropWhile_self hu
    rw [List.dropWhile_cons, if_neg (by simp [hc])]

/-- Both one-sided components of a `stripL`-fixed list are fixed. -/
theorem strip_parts {x : List Char} (h : stripL x = x) :
    x.dropWhile isSpC = x ∧ List.rdropWhile isSpC x = x := by
  have hsuf := List.dropWhile_suffix (l := x) isSpC
  have hpre := List.rdropWhile_prefix isSpC (x.dropWhile isSpC)
  have h1 : (stripL x).length ≤ (x.dropWhile isSpC).length := by
    rw [stripL_eq]
    exact hpre.length_le
  rw [h] at h1
  have h2 : x.dropWhile isSpC = x :=
    hsuf.eq_of_length (le_antisymm hsuf.length_le h1)
  refine ⟨h2, ?_⟩
  have h3 : List.rdropWhile isSpC x = stripL x := by rw [stripL_eq, h2]
  rw [h3, h]

/-- A list fixed by both one-sided drops is `stripL`-fixed. -/
theorem strip_of_parts {x : List Char} (h1 : x.dropWhile isSpC = x)
    (h2 : List.rdropWhile isSpC x = x) : stripL x = x := by
  rw [stripL_eq, h1, h2]

/-- Stripping is idempotent. -/
theorem stripL_idem (l : List Char) : stripL (stripL l) = stripL l := by
  have hfix : (stripL l).dropWhile isSpC = stripL l := by
    apply dropWhile_self_of_prefix (u := l.dropWhile isSpC)
    · rw [stripL_eq]
      exact List.rdropWhile_prefix isSpC _
    · exact List.dropWhile_idempotent isSpC l
  apply strip_of_parts hfix
  rw [stripL_eq]
  exact List.rdropWhile_idempotent isSpC (l.dropWhile isSpC)

/-- The key join identity: gluing a stripped, non-empty continuation onto
a stripped accumulator with a single space strips to the plain
concatenation — except that an empty accumulator disappears. -/
theorem stripL_append_cont {a b : List Char} (sa : stripL a = a)
    (sb : stripL b = b) (hb : b ≠ []) :
    stripL (a ++ ' ' :: b) = if a = [] then b else a ++ ' ' :: b := by
  obtain ⟨db, rb⟩ := strip_parts sb
  by_cases ha : a = []
  · subst ha
    rw [if_pos rfl, List.nil_append, stripL_eq, List.dropWhile_cons,
      if_pos (by decide), db, rb]
  · obtain ⟨da, ra⟩ := strip_parts sa
    rw [if_neg ha]
    rcases a with _ | ⟨c, a'⟩
    · exact absurd rfl ha
    · have hc := head_false_of_dropWhile_self da
      apply strip_of_parts
      · rw [List.cons_append, List.dropWhile_cons, if_neg (by simp [hc])]
      · rw [List.rdropWhile_eq_self_iff]
        intro hl
        have hblast := (List.rdropWhile_eq_self_iff.mp rb) hb
        rw [List.getLast_append_of_ne_nil (by simp [hb] : (' ' :: b) ≠ [])]
        rw [List.getLast_cons hb]
        exact hblast

/-- Gluing a space-joined head: joining with a compound head equals
joining with the two pieces separately. -/
theorem spaceJoin_glue (d0 d : List Char) (F : List (List Char)) :
    spaceJoin ((d0 ++ ' ' :: d) :: F) = d0 ++ ' ' :: spaceJoin (d :: F) := by
  cases F with
  | nil => rfl
  | cons f t =>
    show (d0 ++ ' ' :: d) ++ ' ' :: spaceJoin (f :: t) =
      d0 ++ ' ' :: (d ++ ' ' :: spaceJoin (f :: t))
    simp [List.append_assoc]

/-- Folding the continuation join over stripped, non-empty descriptions
equals the space-join of the non-empty descriptions. -/
theorem descJoin_eq {ds : List (List Char)} :
    ∀ d0, stripL d0 = d0 → (∀ d ∈ ds, stripL d = d ∧ d ≠ []) →
      descJoin d0 ds = spaceJoin ((d0 :: ds).filter (· ≠ [])) := by
  induction ds with
  | nil =>
    intro d0 _ _
    show d0 = spaceJoin (List.filter (fun x => decide (x ≠ [])) [d0])
    by_cases h0 : d0 = []
    · subst h0; rfl
    · rw [List.filter_cons_of_pos (by simpa using h0)]
      rfl
  | cons d rest ih =>
    intro d0 s0 hds
    obtain ⟨sd, hd⟩ := hds d (List.mem_cons_self _ _)
    have hrest : ∀ d' ∈ rest, stripL d' = d' ∧ d' ≠ [] := fun d' hd' =>
      hds d' (List.mem_cons_of_mem _ hd')
    have hstep : descJoin d0 (d :: rest) = descJoin (stripL (d0 ++ ' ' :: d)) rest := rfl
    have hglue := stripL_append_cont s0 sd hd
    by_cases h0 : d0 = []
    · rw [if_pos h0] at hglue
      rw [hstep, hglue, ih d sd hrest, h0]
      conv_rhs => rw [List.filter_cons_of_neg (by simp)]
    · rw [if_neg h0] at hglue
      rw [hstep, hglue, ih (d0 ++ ' ' :: d) (by rw [hglue]) hrest]
      rw [List.filter_cons_of_pos (by simp), List.filter_cons_of_pos (by simpa using h0),
        List.filter_cons_of_pos (by simpa using hd)]
      exact spaceJoin_glue d0 d _

/-- `_extract_description` output is always stripped. -/
theorem extractDescription_stripped (its : List TextItem) (dl dr : ℚ) :
    stripL (extractDescription its dl dr) = extractDescription its dl dr :=
  stripL_idem _

/-- Replaying a run of continuation rows (no stop phrase, no date,
non-empty description) extends the open line's description by the
iterated join, leaving date and amounts untouched. -/
theorem scanRows_cont :
    ∀ (grp rest : List (ℚ × List TextItem)) (c : RawLine) (dl dr : ℚ) (a : Anchors),
      (∀ q ∈ grp, stopRow q.2 = false ∧ extractRowDate q.2 dl = none ∧
        extractDescription q.2 dl dr ≠ []) →
      scanRows dl dr a (grp ++ rest) (some c) =
        scanRows dl dr a rest
          (some ⟨c.rdate, descJoin c.rdesc (grp.map fun q => extractDescription q.2 dl dr),
            c.rdep, c.rwd⟩) := by
  intro grp
  induction grp with
  | nil => intro rest c dl dr a _; rfl
  | cons q grp' ih =>
    intro rest c dl dr a hgrp
    obtain ⟨y, its⟩ := q
    obtain ⟨hstop, hdate, hdesc⟩ := hgrp (y, its) (List.mem_cons_self _ _)
    have hgrp' : ∀ q' ∈ grp', stopRow q'.2 = false ∧ extractRowDate q'.2 dl = none ∧
        extractDescription q'.2 dl dr ≠ [] := fun q' hq' =>
      hgrp q' (List.mem_cons_of_mem _ hq')
    simp only [List.cons_append, scanRows, hstop, Bool.false_eq_true, if_false,
      List.append_eq, hdate]
    rw [if_neg hdesc]
    rw [ih rest ⟨c.rdate, stripL (c.rdesc ++ ' ' :: extractDescription its dl dr),
      c.rdep, c.rwd⟩ dl dr a hgrp']
    rfl

/-- C9: a dated row (no stop phrase) followed by continuation rows — rows
without a date but with non-empty description text — and then arbitrary
further rows yields exactly one open line for the group: it closes the
previously open line, and carries the dated row's date and amounts with
the space-joined concatenation of all the group's non-empty descriptions,
in processing order.  A row with neither date nor description leaves the
scan state unchanged. -/
theorem c9_continuation_folding :
    (∀ (dl dr : ℚ) (a : Anchors) (cur : Option RawLine)
      (row : ℚ × List TextItem) (grp rest : List (ℚ × List TextItem))
      (dt : List Char),
      stopRow row.2 = false →
      extractRowDate row.2 dl = some dt →
      (∀ q ∈ grp, stopRow q.2 = false ∧ extractRowDate q.2 dl = none ∧
        extractDescription q.2 dl dr ≠ []) →
      scanRows dl dr a (row :: (grp ++ rest)) cur =
        cur.toList ++ scanRows dl dr a rest
          (some ⟨dt,
            spaceJoin ((extractDescription row.2 dl dr ::
              grp.map fun q => extractDescription q.2 dl dr).filter (· ≠ [])),
            (extractAmounts row.2 a).1, (extractAmounts row.2 a).2⟩)) ∧
    (∀ (dl dr : ℚ) (a : Anchors) (cur : Option RawLine)
      (row : ℚ × List TextItem) (rest : List (ℚ × List TextItem)),
      stopRow row.2 = false →
      extractRowDate row.2 dl = none →
      extractDescription row.2 dl dr = [] →
      scanRows dl dr a (row :: rest) cur = scanRows dl dr a rest cur) := by
  constructor
  · intro dl dr a cur row grp rest dt hstop hdate hgrp
    obtain ⟨y, its⟩ := row
    simp only [scanRows, hstop, Bool.false_eq_true, if_false, hdate]
    rw [scanRows_cont grp rest
      ⟨dt, extractDescription its dl dr, (extractAmounts its a).1,
        (extractAmounts its a).2⟩ dl dr a hgrp]
    have hconds : ∀ d ∈ grp.map fun q => extractDescription q.2 dl dr,
        stripL d = d ∧ d ≠ [] := by
      intro d hd
      obtain ⟨q, hq, rfl⟩ := List.mem_map.mp hd
      exact ⟨extractDescription_stripped _ _ _, (hgrp q hq).2.2⟩
    rw [show descJoin (extractDescription its dl dr)
        (grp.map fun q => extractDescription q.2 dl dr) =
        spaceJoin ((extractDescription its dl dr ::
          grp.map fun q => extractDescription q.2 dl dr).filter (· ≠ [])) from
      descJoin_eq _ (extractDescription_stripped _ _ _) hconds]
  · intro dl dr a cur row rest hstop hdate hdesc
    obtain ⟨y, its⟩ := row
    cases cur with
    | none => simp only [scanRows, hstop, Bool.false_eq_true, if_false, hdate]
    | some c =>
      simp only [scanRows, hstop, Bool.false_eq_true, if_false, hdate]
      rw [if_pos hdesc]

/-- C9 witness: a dated row followed by the two continuation rows folds
into a single open line whose description is the space-join of the three
description cells. -/
theorem c9_continuation_folding_witness :
    scanRows 80 298 anchorsW (rowDated :: (rowsCont ++ [])) none =
      (none : Option RawLine).toList ++ scanRows 80 298 anchorsW []
        (some ⟨"2024-02-01".toList,
          spaceJoin ((extractDescription rowDated.2 80 298 ::
            rowsCont.map fun q => extractDescription q.2 80 298).filter (· ≠ [])),
          (extractAmounts rowDated.2 anchorsW).1,
          (extractAmounts rowDated.2 anchorsW).2⟩) :=
  c9_continuation_folding.1 80 298 anchorsW none rowDated rowsCont []
    ("2024-02-01".toList) (by decide!) (by decide!) (by decide!)

/-- The clustering processes fragments in descending-y order. -/
theorem sortItems_pairwise (items : List TextItem) :
    (sortItems items).Pairwise fun a b => b.y ≤ a.y := by
  have h := List.sorted_insertionSort itemR items
  exact h.imp fun hab => by
    rcases hab with h1 | ⟨h1, _⟩
    · exact le_of_lt h1
    · exact le_of_eq h1.symm

/-- `addToRow` preserves the per-row bound `key - tol ≤ y ≤ key`, given
that the new item lies below every existing key. -/
theorem addToRow_bound (tol : ℚ) (htol : 0 ≤ tol) :
    ∀ (rows : List (ℚ × List TextItem)) (i : TextItem),
      (∀ p ∈ rows, ∀ j ∈ p.2, p.1 - tol ≤ j.y ∧ j.y ≤ p.1) →
      (∀ p ∈ rows, i.y ≤ p.1) →
      ∀ p ∈ addToRow tol rows i, ∀ j ∈ p.2, p.1 - tol ≤ j.y ∧ j.y ≤ p.1 := by
  intro rows
  induction rows with
  | nil =>
    intro i _ _ p hp j hj
    simp only [addToRow, List.mem_singleton] at hp
    subst hp
    simp only [List.mem_singleton] at hj
    subst hj
    exact ⟨sub_le_self _ htol, le_rfl⟩
  | cons kb rows' ih =>
    intro i hP hQ p hp j hj
    obtain ⟨k, b⟩ := kb
    simp only [addToRow] at hp
    by_cases habs : |k - i.y| ≤ tol
    · rw [if_pos habs] at hp
      rcases List.mem_cons.mp hp with hp1 | hp2
      · subst hp1
        rcases List.mem_append.mp hj with hj1 | hj2
        · exact hP (k, b) (List.mem_cons_self _ _) j hj1
        · simp only [List.mem_singleton] at hj2
          subst hj2
          have h1 := abs_le.mp habs
          have h2 := hQ (k, b) (List.mem_cons_self _ _)
          constructor
          · linarith [h1.2]
          · exact h2
      · exact hP p (List.mem_cons_of_mem _ hp2) j hj
    · rw [if_neg habs] at hp
      rcases List.mem_cons.mp hp with hp1 | hp2
      · subst hp1
        exact hP (k, b) (List.mem_cons_self _ _) j hj
      · exact ih i
          (fun p' hp' => hP p' (List.mem_cons_of_mem _ hp'))
          (fun p' hp' => hQ p' (List.mem_cons_of_mem _ hp'))
          p hp2 j hj

/-- Every key after `addToRow` is an old key or the new item's y. -/
theorem addToRow_keys (tol : ℚ) :
    ∀ (rows : List (ℚ × List TextItem)) (i : TextItem),
      ∀ p ∈ addToRow tol rows i, (∃ q ∈ rows, p.1 = q.1) ∨ p.1 = i.y := by
  intro rows
  induction rows with
  | nil =>
    intro i p hp
    simp only [addToRow, List.mem_singleton] at hp
    subst hp
    exact .inr rfl
  | cons kb rows' ih =>
    intro i p hp
    obtain ⟨k, b⟩ := kb
    simp only [addToRow] at hp
    by_cases habs : |k - i.y| ≤ tol
    · rw [if_pos habs] at hp
      rcases List.mem_cons.mp hp with hp1 | hp2
      · subst hp1
        exact .inl ⟨(k, b), List.mem_cons_self _ _, rfl⟩
      · exact .inl ⟨p, List.mem_cons_of_mem _ hp2, rfl⟩
    · rw [if_neg habs] at hp
      rcases List.mem_cons.mp hp with hp1 | hp2
      · subst hp1
        exact .inl ⟨(k, b), List.mem_cons_self _ _, rfl⟩
      · rcases ih i p hp2 with ⟨q, hq, he⟩ | he
        · exact .inl ⟨q, List.mem_cons_of_mem _ hq, he⟩
        · exact .inr he

/-- The fold of `addToRow` over a descending-y item list keeps every
bucket within `[key - tol, key]`. -/
theorem cluster_bound (tol : ℚ) (htol : 0 ≤ tol) :
    ∀ (pending : List TextItem) (rows : List (ℚ × List TextItem)),
      pending.Pairwise (fun a b => b.y ≤ a.y) →
      (∀ p ∈ rows, ∀ j ∈ p.2, p.1 - tol ≤ j.y ∧ j.y ≤ p.1) →
      (∀ p ∈ rows, ∀ it ∈ pending, it.y ≤ p.1) →
      ∀ p ∈ pending.foldl (addToRow tol) rows, ∀ j ∈ p.2,
        p.1 - tol ≤ j.y ∧ j.y ≤ p.1 := by
  intro pending
  induction pending with
  | nil => intro rows _ hP _; simpa using hP
  | cons i rest ih =>
    intro rows hpw hP hQ
    simp only [List.foldl_cons]
    have hpw' := (List.pairwise_cons.mp hpw).2
    have hhead := (List.pairwise_cons.mp hpw).1
    apply ih (addToRow tol rows i) hpw'
    · exact addToRow_bound tol htol rows i hP
        (fun p hp => hQ p hp i (List.mem_cons_self _ _))
    · intro p hp it hit
      rcases addToRow_keys tol rows i p hp with ⟨q, hq, he⟩ | he
      · rw [he]
        exact hQ q hq it (List.mem_cons_of_mem _ hit)
      · rw [he]
        exact hhead it hit

/-- C6 (amended): for every input list — hence independently of input
order — two fragments assigned to the same row never have y-values more
than the tolerance apart (each row spans at most `[key - tol, key]`).
Fragments within tolerance of each other may still land in different
rows by chaining (see the counterexample); a fragment joins the first
already-created row whose key lies within tolerance. -/
theorem c6_never_merge :
    ∀ (tol : ℚ) (items : List TextItem) (k : ℚ) (b : List TextItem)
      (a a' : TextItem),
      0 ≤ tol → (k, b) ∈ groupRows items tol → a ∈ b → a' ∈ b →
      |a.y - a'.y| ≤ tol := by
  intro tol items k b a a' htol hmem ha ha'
  unfold groupRows at hmem
  obtain ⟨⟨k0, b0⟩, hmem0, heq⟩ := List.mem_map.mp hmem
  have hk : k0 = k := congrArg Prod.fst heq
  have hb : b0.insertionSort xR = b := congrArg Prod.snd heq
  have hbound := cluster_bound tol htol (sortItems items) [] (sortItems_pairwise items)
    (by simp) (by simp) ⟨k0, b0⟩ hmem0
  have ha0 : a ∈ b0 := by
    rw [← hb] at ha
    exact (List.mem_insertionSort xR).mp ha
  have ha0' : a' ∈ b0 := by
    rw [← hb] at ha'
    exact (List.mem_insertionSort xR).mp ha'
  have h1 := hbound a ha0
  have h2 := hbound a' ha0'
  rw [abs_le]
  constructor <;> simp only at h1 h2 <;> [skip; skip] <;> linarith [h1.1, h1.2, h2.1, h2.2]

/-- C6 witness: two fragments of the same row (y = 3 and y = 1.5) differ
by at most the tolerance. -/
theorem c6_never_merge_witness :
    |((⟨0, 3, "a".toList⟩ : TextItem)).y - ((⟨0, 3 / 2, "b".toList⟩ : TextItem)).y| ≤
      (1.8 : ℚ) :=
  c6_never_merge (1.8 : ℚ) itemsC6 3
    [⟨0, 3, "a".toList⟩, ⟨0, 3 / 2, "b".toList⟩]
    ⟨0, 3, "a".toList⟩ ⟨0, 3 / 2, "b".toList⟩
    (by norm_num) (by decide!) (by decide!) (by decide!)

/-- A label lookup succeeds exactly when some fragment bears that text. -/
theorem lastX_isSome_iff (its : List TextItem) (s : List Char) :
    (lastX its s).isSome ↔ ∃ t ∈ its, t.text = s := by
  simp [lastX, List.find?_isSome, List.mem_reverse]

/-- The anchor record exists exactly when all five lookups succeed. -/
theorem rowAnchors_isSome (its : List TextItem) :
    (rowAnchors its).isSome =
      ((lastX its labelDate).isSome && (lastX its labelDesc).isSome &&
        (lastX its labelDeposit).isSome && (lastX its labelWithdrawal).isSome &&
        (lastX its labelBalance).isSome) := by
  unfold rowAnchors
  rcases lastX its labelDate with _ | x1 <;>
    rcases lastX its labelDesc with _ | x2 <;>
    rcases lastX its labelDeposit with _ | x3 <;>
    rcases lastX its labelWithdrawal with _ | x4 <;>
    rcases lastX its labelBalance with _ | x5 <;> rfl

/-- Anchor extraction succeeds exactly on rows covering the required
label set. -/
theorem rowAnchors_isSome_iff (its : List TextItem) :
    (rowAnchors its).isSome ↔ coversRequired its := by
  rw [rowAnchors_isSome]
  simp only [Bool.and_eq_true]
  rw [show ((lastX its labelDate).isSome = true) ↔ _ from lastX_isSome_iff its labelDate,
    show ((lastX its labelDesc).isSome = true) ↔ _ from lastX_isSome_iff its labelDesc,
    show ((lastX its labelDeposit).isSome = true) ↔ _ from lastX_isSome_iff its labelDeposit,
    show ((lastX its labelWithdrawal).isSome = true) ↔ _ from
      lastX_isSome_iff its labelWithdrawal,
    show ((lastX its labelBalance).isSome = true) ↔ _ from lastX_isSome_iff its labelBalance]
  constructor
  · rintro ⟨⟨⟨⟨hd, hds⟩, hdp⟩, hw⟩, hb⟩ l hl
    simp only [requiredLabels, List.mem_cons, List.not_mem_nil, or_false] at hl
    rcases hl with rfl | rfl | rfl | rfl | rfl <;> assumption
  · intro hc
    refine ⟨⟨⟨⟨?_, ?_⟩, ?_⟩, ?_⟩, ?_⟩ <;> apply hc <;>
      simp [requiredLabels]

/-- C5 (amended): header detection returns `none` exactly when no row
contains all five required labels among its fragment texts; on success it
returns the first such row in scan order — extra fragments in the row are
tolerated — with that row's key and its anchor record; and a missing
header makes the parser return the empty result. -/
theorem c5_header_detection :
    (∀ rows : List (ℚ × List TextItem),
      findTransactionHeader rows = none ↔ ∀ r ∈ rows, ¬coversRequired r.2) ∧
    (∀ (rows : List (ℚ × List TextItem)) (y : ℚ) (a : Anchors),
      findTransactionHeader rows = some (y, a) →
      ∃ pre row post, rows = pre ++ row :: post ∧
        (∀ r ∈ pre, ¬coversRequired r.2) ∧ coversRequired row.2 ∧
        y = row.1 ∧ rowAnchors row.2 = some a) ∧
    (∀ items : List TextItem,
      findTransactionHeader (groupRows items (1.8 : ℚ)) = none →
      parseItems items = []) := by
  have hiff : ∀ its : List TextItem, rowAnchors its = none ↔ ¬coversRequired its := by
    intro its
    rw [← rowAnchors_isSome_iff]
    rcases rowAnchors its with _ | a <;> simp
  refine ⟨?_, ?_, ?_⟩
  · intro rows
    induction rows with
    | nil => simp [findTransactionHeader]
    | cons r rest ih =>
      obtain ⟨y, its⟩ := r
      simp only [findTransactionHeader]
      rcases h : rowAnchors its with _ | a
      · simp only []
        constructor
        · intro hn r hr
          rcases List.mem_cons.mp hr with rfl | hr2
          · exact (hiff its).mp h
          · exact ih.mp hn r hr2
        · intro hall
          exact ih.mpr fun r hr => hall r (List.mem_cons_of_mem _ hr)
      · simp only []
        constructor
        · intro h'
          exact absurd h' (by simp)
        · intro hall
          exfalso
          have hc := hall (y, its) (List.mem_cons_self _ _)
          have := (hiff its).mpr hc
          rw [h] at this
          exact Option.noConfusion this
  · intro rows
    induction rows with
    | nil => intro y a h; simp [findTransactionHeader] at h
    | cons r rest ih =>
      intro y a h
      obtain ⟨y0, its⟩ := r
      simp only [findTransactionHeader] at h
      rcases h0 : rowAnchors its with _ | a0
      · rw [h0] at h
        obtain ⟨pre, row, post, hrw, hpre, hcov, hy, hanch⟩ := ih y a h
        refine ⟨(y0, its) :: pre, row, post, by rw [hrw]; rfl, ?_, hcov, hy, hanch⟩
        intro r' hr'
        rcases List.mem_cons.mp hr' with rfl | h2
        · exact (hiff its).mp h0
        · exact hpre r' h2
      · rw [h0] at h
        simp only [Option.some.injEq, Prod.mk.injEq] at h
        refine ⟨[], (y0, its), rest, rfl, by simp, ?_, h.1.symm, ?_⟩
        · by_contra hnc
          have := (hiff its).mpr hnc
          rw [h0] at this
          exact Option.noConfusion this
        · rw [h0, h.2]
  · intro items h
    rcases items with _ | ⟨t, ts⟩
    · rfl
    · by_cases hm : ((t :: ts).any fun u => decide (markerT <:+: u.text)) = true
      · simp only [parseItems, List.isEmpty_cons, Bool.false_eq_true, if_false, hm,
          Bool.not_true, h]
      · simp only [parseItems, List.isEmpty_cons, Bool.false_eq_true, if_false,
          Bool.not_eq_true] at hm ⊢
        rw [hm]
        rfl

/-- C5 witness: a map whose only row lacks the Deposit label yields no
header, and parsing the corresponding items gives the empty list. -/
theorem c5_header_detection_witness :
    parseItems [⟨0, 0, markerT⟩] = [] :=
  c5_header_detection.2.2 [⟨0, 0, markerT⟩] (by decide!)
